import Mathlib

/-!
Shallow embedding of the `secure-role-guard` core: the role registry
(`defineRoles` in the role-registry module) and the permission engine
(`collectUserPermissions`, `hasWildcardAccess`, `canUser`, `canUserAll`,
`canUserAny`, `checkPermission` in `src/core/permission-engine.ts`).

Conventions of the embedding:
- A TS `UserContext | null | undefined` is `Option UserContext`; the optional
  fields `roles` and `permissions` are `Option (List String)`.
- A `RoleDefinition` object (a JS record from role name to permission array,
  where a value may be explicitly `undefined`) is an association list
  `List (String × Option (List String))`; a JS record has no duplicate keys,
  so claims that depend on key uniqueness take a `Nodup` hypothesis.
- A JS `Set<string>` is used by the engine only through membership tests, so
  the collected permission set is represented as a `List String` queried with
  `List.contains`.
- JS `split(".")` is modelled by `splitOnDot` below (structural recursion on
  the character list, same semantics: `"".split(".")` is `[""]`, separators
  delimit possibly-empty fields). The engine only ever asks whether
  `trim() === ""`, which holds exactly when every character is whitespace;
  that test is modelled by `isBlank`.
-/

/-- JS whitespace for `trim`: space, tab, newline, carriage return, vertical
tab, form feed (the ASCII part of the JS WhiteSpace/LineTerminator sets). -/
def isJsWhitespace (c : Char) : Bool :=
  c == ' ' || c == '\t' || c == '\n' || c == '\r' ||
  c == (Char.ofNat 11) || c == (Char.ofNat 12)

/-- `s.trim() === ""` in JS: every character of `s` is whitespace (true for
the empty string). -/
def isBlank (s : String) : Bool :=
  s.data.all isJsWhitespace

/-- Accumulator-based splitter for `splitOnDot`. -/
def splitOnDotAux : List Char → List Char → List String
  | [], acc => [String.mk acc.reverse]
  | c :: rest, acc =>
    if c == '.' then String.mk acc.reverse :: splitOnDotAux rest []
    else splitOnDotAux rest (c :: acc)

/-- JS `s.split(".")`: fields between dots, in order, possibly empty;
`"".split(".")` is `[""]`. -/
def splitOnDot (s : String) : List String :=
  splitOnDotAux s.data []

/-- `UserContext` from `src/core/types.ts`: optional user id, optional role
names, optional direct permissions. The `meta` field is never read by the
core and is omitted. -/
structure UserContext where
  userId : Option String := none
  roles : Option (List String) := none
  permissions : Option (List String) := none
deriving Repr, DecidableEq

/-- `RoleRegistry` from `src/core/types.ts`: a record of three read-only
operations. `getRoleNames` takes no argument, so it is a plain list here. -/
structure RoleRegistry where
  getPermissions : String → List String
  hasRole : String → Bool
  getRoleNames : List String

/-- `RoleDefinition` input to `defineRoles`: role name to (possibly
explicitly-undefined) permission array. -/
abbrev RoleDefinition := List (String × Option (List String))

/-- The frozen internal table `defineRoles` builds: entries of `definitions`
whose value is defined, each permission array copied.

Scope note: this is the *intended* content of the record — it ignores the
JS prototype chain of the object-literal backing store. It is exact only
for definitions without an own `"__proto__"` key (whose assignment the
inherited setter intercepts) and, on the read side, for role names that are
not `Object.prototype` properties. The runtime-faithful record model,
including the prototype chain, is `jsOwnProperties`/`jsRecordRead` below. -/
def frozenDefinitions (definitions : RoleDefinition) : List (String × List String) :=
  definitions.filterMap (fun e => e.2.map (fun ps => (e.1, ps)))

/-- `defineRoles` from the role-registry module: skips explicitly-undefined
entries, then exposes `getPermissions` (empty list for an unknown role),
`hasRole` (own-key test) and `getRoleNames` (the stored keys).

Scope note: `getPermissions` here models the lookup `frozenDefinitions[role]`
as a pure own-key lookup; the real record also yields inherited
`Object.prototype` members for some unstored role names, which the source's
`!== undefined` guard does not filter (see `jsGetPermissions` below).
`hasRole` and `getRoleNames` use `Object.prototype.hasOwnProperty.call` and
`Object.keys`, which are own-property operations, so for them only the
build-time `"__proto__"` interception matters. -/
def defineRoles (definitions : RoleDefinition) : RoleRegistry :=
  { getPermissions := fun role =>
      match (frozenDefinitions definitions).find? (fun e => e.1 == role) with
      | some e => e.2
      | none => []
    hasRole := fun role => (frozenDefinitions definitions).any (fun e => e.1 == role)
    getRoleNames := (frozenDefinitions definitions).map (fun e => e.1) }

/-- `createEmptyRegistry` from the role-registry module. -/
def createEmptyRegistry : RoleRegistry :=
  defineRoles []

/-- `collectUserPermissions` from `permission-engine.ts`: the user's direct
permissions (if present) followed by the registry permissions of each of the
user's roles (if present). The JS `Set` is used only for membership, so the
accumulated list stands for it. -/
def collectUserPermissions (user : UserContext) (registry : RoleRegistry) :
    List String :=
  (match user.permissions with
   | some ps => ps
   | none => []) ++
  (match user.roles with
   | some roles => roles.flatMap (fun role => registry.getPermissions role)
   | none => [])

/-- The namespace-wildcard loop of `hasWildcardAccess`: walks the segments,
growing `ns` by `ns === "" ? part : ns ++ "." ++ part`, and tests
`ns ++ ".*"` at each step. (The JS `part !== undefined` guard is a
type-narrowing no-op: split never yields undefined elements.) -/
def wildcardLoop (permissions : List String) : List String → String → Bool
  | [], _ => false
  | part :: rest, ns =>
    let ns' := if ns == "" then part else ns ++ "." ++ part
    if permissions.contains (ns' ++ ".*") then true
    else wildcardLoop permissions rest ns'

/-- `hasWildcardAccess` from `permission-engine.ts`: global wildcard `"*"`,
else the namespace-wildcard loop over all segments but the last
(`i < parts.length - 1`). -/
def hasWildcardAccess (permissions : List String) (requested : String) : Bool :=
  if permissions.contains "*" then true
  else wildcardLoop permissions (splitOnDot requested).dropLast ""

/-- `canUser` from `permission-engine.ts`: deny on missing user, deny on
empty/whitespace-only permission, then exact match or wildcard access over
the collected permission set. -/
def canUser (user : Option UserContext) (permission : String)
    (registry : RoleRegistry) : Bool :=
  match user with
  | none => false
  | some user =>
    if permission == "" || isBlank permission then false
    else if (collectUserPermissions user registry).contains permission then true
    else if hasWildcardAccess (collectUserPermissions user registry) permission then
      true
    else false

/-- `canUserAll` from `permission-engine.ts`: deny on the empty list, else
every element must pass `canUser`. -/
def canUserAll (user : Option UserContext) (permissions : List String)
    (registry : RoleRegistry) : Bool :=
  if permissions.isEmpty then false
  else permissions.all (fun permission => canUser user permission registry)

/-- `canUserAny` from `permission-engine.ts`: deny on the empty list, else
some element must pass `canUser`. -/
def canUserAny (user : Option UserContext) (permissions : List String)
    (registry : RoleRegistry) : Bool :=
  if permissions.isEmpty then false
  else permissions.any (fun permission => canUser user permission registry)

/-- `PermissionCheckResult` from `src/core/types.ts`. `checkPermission`
always sets a reason, so the field is a plain `String` here. -/
structure PermissionCheckResult where
  allowed : Bool
  reason : String
deriving Repr, DecidableEq

/-- `checkPermission` from `permission-engine.ts`: the same guards as
`canUser`, then delegates to `canUser` and attaches a reason string. -/
def checkPermission (user : Option UserContext) (permission : String)
    (registry : RoleRegistry) : PermissionCheckResult :=
  match user with
  | none => { allowed := false, reason := "No user context provided" }
  | some user =>
    if permission == "" || isBlank permission then
      { allowed := false, reason := "Empty permission requested" }
    else
      { allowed := canUser (some user) permission registry
        reason :=
          if canUser (some user) permission registry then
            "Permission \"" ++ permission ++ "\" granted"
          else "Permission \"" ++ permission ++ "\" denied" }

/-- Dot-joining of a segment list, for the spec-side reading of C1. -/
def joinDots : List String → String
  | [] => ""
  | [p] => p
  | p :: rest => p ++ "." ++ joinDots rest

/-- Spec-side reading of the wildcard prefixes for C1, following the spec's
words: split on `.`, take every non-empty proper prefix of the segment list
(left to right, excluding the full string), joined back with `.`. -/
def specSegmentPrefixes (requested : String) : List String :=
  let parts := splitOnDot requested
  (List.range (parts.length - 1)).map
    (fun i => joinDots (parts.take (i + 1)))

/-- Spec-side reading of the whole grant condition of C1: the effective set
contains the permission exactly, or the global wildcard, or
`prefix ++ ".*"` for some spec-read segment prefix. -/
def specGrant (effective : List String) (requested : String) : Bool :=
  effective.contains requested || effective.contains "*" ||
    (specSegmentPrefixes requested).any
      (fun q => effective.contains (q ++ ".*"))

/-- The namespaces actually tested by `wildcardLoop`, starting from
accumulator `ns`: at each segment the accumulator grows by the source's rule
(`ns === "" ? part : ns ++ "." ++ part`) and is recorded. -/
def nsPrefixes (ns : String) : List String → List String
  | [] => []
  | part :: rest =>
    let ns' := if ns == "" then part else ns ++ "." ++ part
    ns' :: nsPrefixes ns' rest

/-- The namespace prefixes of a requested permission as the code builds
them: over all segments but the last, accumulated left to right with an
empty accumulator replaced by the next segment (not dot-joined). -/
def codeSegmentPrefixes (requested : String) : List String :=
  nsPrefixes "" ((splitOnDot requested).dropLast)

/-- Grant condition with the code's prefix-building rule: exact match,
global wildcard, or `q ++ ".*"` for some code-built namespace prefix `q`. -/
def amendedGrant (effective : List String) (requested : String) : Bool :=
  effective.contains requested || effective.contains "*" ||
    (codeSegmentPrefixes requested).any
      (fun q => effective.contains (q ++ ".*"))

/-!
Store-passing rendering for the defensive-copy claim (C8). In JS the
caller's permission arrays are mutable heap objects; `defineRoles` reads
them once (`[...permissions]`) and keeps frozen copies. We model the heap
as a map from references to string lists; a definitions object whose values
are references is read through the store at construction time.
-/

/-- The mutable heap: each reference names a (current) list of strings. -/
abbrev Store := Nat → List String

/-- A definitions object whose permission arrays live on the heap: role
name to (possibly explicitly-undefined) array reference. -/
abbrev RoleDefinitionRef := List (String × Option Nat)

/-- Reading a heap-based definitions object through a store: each defined
reference is dereferenced to the list it currently holds. -/
def derefDefinitions (D : RoleDefinitionRef) (σ : Store) : RoleDefinition :=
  D.map (fun e => (e.1, e.2.map σ))

/-- `defineRoles` on a heap-based definitions object at construction store
`σ`: the spread `[...permissions]` reads each referenced array out of the
store once, so the registry keeps values, not references. -/
def defineRolesAt (D : RoleDefinitionRef) (σ : Store) : RoleRegistry :=
  defineRoles (derefDefinitions D σ)

/-- Reference semantics of a lookup: what the stored references dereference
to in a given store. `(defineRolesAt D σ0).getPermissions` agreeing with
`refPermissions D σ0` — the construction-time store, whatever the store
holds later — is the defensive-copy property. -/
def refPermissions (D : RoleDefinitionRef) (σ : Store) (role : String) :
    List String :=
  match (D.filterMap (fun e => e.2.map (fun r => (e.1, r)))).find?
      (fun e => e.1 == role) with
  | some e => σ e.2
  | none => []

/-!
Runtime-faithful model of the registry's backing record. The source builds
`frozenDefinitions` as an object literal (`{}`), whose prototype is
`Object.prototype`. Two JS behaviours matter:
- Reads: `frozenDefinitions[role]` falls back to the prototype chain, so an
  unstored role name that is an `Object.prototype` property (`"toString"`,
  `"valueOf"`, ...) yields the inherited member — which is `!== undefined`,
  so the guard in `getPermissions` returns it instead of the empty array.
- Writes: `frozenDefinitions[role] = ...` for the key `"__proto__"` is
  intercepted by the inherited `__proto__` accessor's setter — it re-points
  the prototype and stores no own property. (Data properties such as
  `toString` do not intercept writes; assignment simply shadows them.)
This model tracks own properties plus the `Object.prototype` chain; it does
not track a prototype re-pointed by a `"__proto__"` write, so reads are
taken only on definitions without an own defined `"__proto__"` entry, where
the model is exact.
-/

/-- The own property names of `Object.prototype`: what a bare read on an
object literal can reach through the prototype chain. All are defined
(function-valued members, or for `"__proto__"` the accessor returning the
prototype object), so none compares `=== undefined`. -/
def objectPrototypeKeys : List String :=
  ["constructor", "hasOwnProperty", "isPrototypeOf", "propertyIsEnumerable",
   "toLocaleString", "toString", "valueOf", "__defineGetter__",
   "__defineSetter__", "__lookupGetter__", "__lookupSetter__", "__proto__"]

/-- Outcome of a property read on the frozen record: a stored permission
array, an inherited `Object.prototype` member, or undefined (`missing`). -/
inductive JsPropRead where
  | stored (ps : List String)
  | inherited
  | missing
deriving Repr, DecidableEq

/-- The own properties the build loop of `defineRoles` actually creates:
one per defined-valued key of `definitions` — except an own `"__proto__"`
key, whose assignment the inherited setter intercepts (nothing stored). -/
def jsOwnProperties (definitions : RoleDefinition) :
    List (String × List String) :=
  definitions.filterMap (fun e =>
    if e.1 == "__proto__" then none
    else e.2.map (fun ps => (e.1, ps)))

/-- A property read `frozenDefinitions[role]`: own property first, else the
`Object.prototype` chain, else undefined. -/
def jsRecordRead (own : List (String × List String)) (role : String) :
    JsPropRead :=
  match own.find? (fun e => e.1 == role) with
  | some e => .stored e.2
  | none =>
    if objectPrototypeKeys.contains role then .inherited else .missing

/-- What `getPermissions` returns at runtime: a string list, or an
inherited `Object.prototype` member leaked through the `!== undefined`
guard (not a string array at all). -/
inductive JsPermissions where
  | list (ps : List String)
  | leaked
deriving Repr, DecidableEq

/-- `getPermissions` of the source over the runtime-faithful record:
`const permissions = frozenDefinitions[role]` followed by
`permissions !== undefined ? permissions : Object.freeze([])`. An inherited
member is `!== undefined` and is returned as-is. -/
def jsGetPermissions (definitions : RoleDefinition) (role : String) :
    JsPermissions :=
  match jsRecordRead (jsOwnProperties definitions) role with
  | .stored ps => .list ps
  | .inherited => .leaked
  | .missing => .list []

/-- `hasRole` of the source: `Object.prototype.hasOwnProperty.call`, an
own-property test, unaffected by the prototype chain. -/
def jsHasRole (definitions : RoleDefinition) (role : String) : Bool :=
  (jsOwnProperties definitions).any (fun e => e.1 == role)

/-- `getRoleNames` of the source: `Object.keys`, the own enumerable keys. -/
def jsGetRoleNames (definitions : RoleDefinition) : List String :=
  (jsOwnProperties definitions).map (fun e => e.1)

/-- The role loop of `collectUserPermissions` over the runtime registry:
`for (const permission of registry.getPermissions(role))` adds the role's
permissions, but throws a TypeError when `getPermissions` returned a leaked
prototype member — a function is not iterable. -/
def jsRolePermissionsLoop (definitions : RoleDefinition) :
    List String → Except String (List String)
  | [] => .ok []
  | role :: rest =>
    match jsGetPermissions definitions role with
    | .list ps =>
      match jsRolePermissionsLoop definitions rest with
      | .ok acc => .ok (ps ++ acc)
      | .error e => .error e
    | .leaked => .error "TypeError: rolePermissions is not iterable"

/-- `collectUserPermissions` over the runtime registry: direct permissions,
then the role loop; a TypeError from the loop propagates. -/
def jsCollectUserPermissions (user : UserContext)
    (definitions : RoleDefinition) : Except String (List String) :=
  match jsRolePermissionsLoop definitions
      (match user.roles with | some rs => rs | none => []) with
  | .ok rolePerms =>
    .ok ((match user.permissions with | some ps => ps | none => []) ++ rolePerms)
  | .error e => .error e

/-- `canUser` over the runtime registry built by `defineRoles` from
`definitions`: the two guards, then the exact/wildcard decision over the
collected set — unless collection threw. -/
def jsCanUser (user : Option UserContext) (permission : String)
    (definitions : RoleDefinition) : Except String Bool :=
  match user with
  | none => .ok false
  | some user =>
    if permission == "" || isBlank permission then .ok false
    else
      match jsCollectUserPermissions user definitions with
      | .ok s =>
        .ok (if s.contains permission then true
          else if hasWildcardAccess s permission then true
          else false)
      | .error e => .error e

/-! ## Helper lemmas -/

theorem contains_mem_iff (l : List String) (x : String) :
    l.contains x = true ↔ x ∈ l := by
  simp

theorem wildcardLoop_eq_any (S : List String) (l : List String) (ns : String) :
    wildcardLoop S l ns =
      (nsPrefixes ns l).any (fun q => S.contains (q ++ ".*")) := by
  induction l generalizing ns with
  | nil => rfl
  | cons part rest ih =>
    simp only [wildcardLoop, nsPrefixes, List.any_cons]
    cases h : S.contains ((if ns == "" then part else ns ++ "." ++ part) ++ ".*") with
    | true => simp [h]
    | false => simp [h, ih]

theorem isBlank_ne_empty {p : String} (hp : isBlank p = false) : (p == "") = false := by
  cases h : p == "" with
  | true =>
    have hpe : p = "" := by simpa using h
    subst hpe
    simp [isBlank] at hp
  | false => rfl

theorem hasWildcardAccess_eq (S : List String) (q : String) :
    hasWildcardAccess S q =
      (S.contains "*" ||
        (codeSegmentPrefixes q).any (fun x => S.contains (x ++ ".*"))) := by
  simp only [hasWildcardAccess, codeSegmentPrefixes, wildcardLoop_eq_any]
  cases h : S.contains "*" <;> simp [h]

theorem canUser_some_eq (u : UserContext) (p : String) (R : RoleRegistry)
    (hp : isBlank p = false) :
    canUser (some u) p R = amendedGrant (collectUserPermissions u R) p := by
  have hguard : (p == "" || isBlank p) = false := by
    rw [isBlank_ne_empty hp, hp]
    rfl
  simp only [canUser, amendedGrant, hasWildcardAccess_eq, hguard,
    Bool.false_eq_true, if_false]
  cases hc : (collectUserPermissions u R).contains p <;>
    cases hw : (collectUserPermissions u R).contains "*" <;>
      cases hA : (codeSegmentPrefixes p).any
          (fun x => (collectUserPermissions u R).contains (x ++ ".*")) <;>
        simp [hc, hw, hA]

/-! ## Claim theorems -/

/-- C1 counterexample: the claim's grant condition joins segment prefixes
with dots, but the code replaces an empty accumulated namespace by the next
segment. On the request `".a.b"` the code tests `"a.*"` while the claim's
condition tests `".a.*"` (and `".*"`), so the two disagree in both
directions on a user holding `["a.*"]` resp. `[".a.*"]`. -/
theorem canUser_spec_prefix_counterexample :
    isBlank ".a.b" = false ∧
    canUser (some { permissions := some ["a.*"] }) ".a.b" (defineRoles []) = true ∧
    specGrant (collectUserPermissions { permissions := some ["a.*"] }
      (defineRoles [])) ".a.b" = false ∧
    canUser (some { permissions := some [".a.*"] }) ".a.b" (defineRoles []) = false ∧
    specGrant (collectUserPermissions { permissions := some [".a.*"] }
      (defineRoles [])) ".a.b" = true :=
  ⟨by decide, by decide, by decide, by decide, by decide⟩

/-- C1 (amended): for every registry, non-null user and non-blank requested
permission, `canUser` grants exactly when the effective permission set
(direct permissions unioned with the registry permissions of the user's
roles) contains the request exactly, or contains `"*"`, or contains
`q ++ ".*"` for some proper namespace prefix `q` of the request — where the
prefixes are accumulated left to right with an empty accumulator replaced by
the next segment rather than dot-joined. -/
theorem canUser_grant_characterization :
    ∀ (R : RoleRegistry) (u : UserContext) (p : String), isBlank p = false →
      canUser (some u) p R = amendedGrant (collectUserPermissions u R) p :=
  fun R u p hp => canUser_some_eq u p R hp

/-- Witness for C1: a concrete namespace-wildcard grant through the
characterization. -/
theorem canUser_grant_characterization_witness :
    canUser (some { roles := some ["manager"] }) "report.export"
      (defineRoles [("manager", some ["report.*"])]) = true := by
  rw [canUser_grant_characterization (defineRoles [("manager", some ["report.*"])])
    { roles := some ["manager"] } "report.export" (by decide)]
  decide

/-- C2 (code bug at the failing input): `"toString"` is not a key of the
empty definitions mapping, yet `getPermissions("toString")` on the runtime
registry returns the inherited `Object.prototype.toString` member — leaked
through the `!== undefined` guard — instead of the empty sequence that both
the claim and the function's own doc comment ("Unknown roles return empty
permissions") promise. `hasRole` is false as claimed, since it is guarded
by `hasOwnProperty`. -/
theorem getPermissions_proto_leak :
    "toString" ∉ ([] : RoleDefinition).map Prod.fst ∧
    jsGetPermissions [] "toString" = JsPermissions.leaked ∧
    jsHasRole [] "toString" = false :=
  ⟨by decide, rfl, rfl⟩

/-- C3 (code bug at the failing input): for a user carrying the role name
`"toString"` and any ordinary permission, `collectUserPermissions` iterates
the value `getPermissions("toString")` returned — the inherited, non-iterable
`Object.prototype.toString` function — so `canUser` throws a TypeError
instead of returning a boolean, contradicting the never-throws claim. -/
theorem canUser_toString_throws :
    jsCanUser (some { roles := some ["toString"] }) "user.read" [] =
      Except.error "TypeError: rolePermissions is not iterable" := rfl

/-- C4: a null/undefined user context is always denied, for every registry
and every permission string including the global wildcard. -/
theorem canUser_null_user :
    ∀ (R : RoleRegistry) (p : String), canUser none p R = false :=
  fun _ _ => rfl

/-- C5: an empty or whitespace-only requested permission is always denied,
for every non-null user (however privileged) and every registry. -/
theorem canUser_blank_permission :
    ∀ (u : UserContext) (R : RoleRegistry) (p : String),
      p = "" ∨ isBlank p = true → canUser (some u) p R = false := by
  intro u R p hp
  have hb : isBlank p = true := by
    rcases hp with h | h
    · subst h
      rfl
    · exact h
  simp [canUser, hb]

/-- Witness for C5: a fully-privileged user is denied a whitespace-only
request. -/
theorem canUser_blank_permission_witness :
    canUser (some { permissions := some ["*"] }) "   " (defineRoles []) = false :=
  canUser_blank_permission { permissions := some ["*"] } (defineRoles []) "   "
    (Or.inr (by decide))

/-- C6: the ALL/ANY variants deny the empty list, and on a non-empty list
`canUserAll` holds exactly when every element passes `canUser` while
`canUserAny` holds exactly when some element does. -/
theorem canUserAll_canUserAny_spec :
    ∀ (u : Option UserContext) (ps : List String) (R : RoleRegistry),
      (ps = [] → canUserAll u ps R = false ∧ canUserAny u ps R = false) ∧
      (ps ≠ [] →
        ((canUserAll u ps R = true ↔ ∀ p ∈ ps, canUser u p R = true) ∧
         (canUserAny u ps R = true ↔ ∃ p ∈ ps, canUser u p R = true))) := by
  intro u ps R
  constructor
  · rintro rfl
    exact ⟨rfl, rfl⟩
  · intro hne
    have hE : ps.isEmpty = false := by
      cases ps with
      | nil => simp at hne
      | cons a t => rfl
    constructor
    · simp [canUserAll, hE, List.all_eq_true]
    · simp [canUserAny, hE, List.any_eq_true]

/-- Witness for C6 on a concrete non-empty list. -/
theorem canUserAll_canUserAny_spec_witness :
    canUserAll (some { permissions := some ["a"] }) ["a"] (defineRoles []) = true ∧
    canUserAny (some { permissions := some ["a"] }) ["a"] (defineRoles []) = true := by
  have h := canUserAll_canUserAny_spec (some { permissions := some ["a"] }) ["a"]
    (defineRoles [])
  exact ⟨((h.2 (by decide)).1).mpr (by decide),
    ((h.2 (by decide)).2).mpr ⟨"a", by decide, by decide⟩⟩

/-- C7: the `allowed` field of `checkPermission` always agrees with
`canUser`, for every user context (including null), permission string and
registry. -/
theorem checkPermission_allowed_eq_canUser :
    ∀ (u : Option UserContext) (p : String) (R : RoleRegistry),
      (checkPermission u p R).allowed = canUser u p R := by
  intro u p R
  cases u with
  | none => rfl
  | some user =>
    cases hcond : (p == "" || isBlank p) <;>
      simp [checkPermission, canUser, hcond]

theorem any_key_map (l : List (String × Nat)) (σ : Store) (r : String) :
    ((l.map (fun e => (e.1, σ e.2))).any (fun e => e.1 == r)) =
      l.any (fun e => e.1 == r) := by
  induction l with
  | nil => rfl
  | cons a t ih => simp [ih]

theorem frozen_deref (D : RoleDefinitionRef) (σ : Store) :
    frozenDefinitions (derefDefinitions D σ) =
      (D.filterMap (fun e => e.2.map (fun r => (e.1, r)))).map
        (fun e => (e.1, σ e.2)) := by
  induction D with
  | nil => rfl
  | cons a t ih =>
    cases ha : a.2 with
    | none =>
      simpa [frozenDefinitions, derefDefinitions, List.filterMap_cons, ha]
        using ih
    | some r =>
      simp [frozenDefinitions, derefDefinitions, List.filterMap_cons, ha]
      simpa [frozenDefinitions, derefDefinitions] using ih

/-- C8: defensive copy. In the store-passing rendering, the registry built
at construction store `σ0` answers `getPermissions` with the values the
referenced arrays held at `σ0` (so no later store mutation can be observed —
the registry holds copies, not references), and `hasRole`/`getRoleNames`
do not depend on the store contents at all. -/
theorem defineRoles_defensive_copy :
    ∀ (D : RoleDefinitionRef) (σ0 σ1 : Store) (r : String),
      (defineRolesAt D σ0).getPermissions r = refPermissions D σ0 r ∧
      (defineRolesAt D σ0).hasRole r = (defineRolesAt D σ1).hasRole r ∧
      (defineRolesAt D σ0).getRoleNames = (defineRolesAt D σ1).getRoleNames := by
  intro D σ0 σ1 r
  refine ⟨?_, ?_, ?_⟩
  · simp only [defineRolesAt, defineRoles, refPermissions, frozen_deref,
      List.find?_map]
    have hpred : ((fun e : String × List String => e.1 == r) ∘
        (fun e : String × Nat => (e.1, σ0 e.2))) =
        (fun e : String × Nat => e.1 == r) := rfl
    rw [hpred]
    cases (D.filterMap (fun e => e.2.map (fun x => (e.1, x)))).find?
        (fun e => e.1 == r) <;> rfl
  · simp only [defineRolesAt, defineRoles, frozen_deref]
    rw [any_key_map, any_key_map]
  · simp only [defineRolesAt, defineRoles, frozen_deref, List.map_map]
    rfl

/-- C9 (code bug at the failing input): a definitions mapping with an own
`"__proto__"` key and a defined value — constructible at runtime, e.g. by
JSON-parsing an object whose sole key is `__proto__` — has that key among
its defined-valued keys, yet the build loop's assignment to
`frozenDefinitions["__proto__"]` is intercepted by the inherited setter and
stores nothing, so on the runtime registry `getRoleNames()` omits the key
and `hasRole("__proto__")` is false — the claimed round-trip fails. -/
theorem getRoleNames_proto_drop :
    ("__proto__", some ["x"]) ∈ ([("__proto__", some ["x"])] : RoleDefinition) ∧
    jsGetRoleNames [("__proto__", some ["x"])] = [] ∧
    jsHasRole [("__proto__", some ["x"])] "__proto__" = false :=
  ⟨by decide, rfl, rfl⟩

theorem collect_eq_getD (u : UserContext) (R : RoleRegistry) :
    collectUserPermissions u R =
      u.permissions.getD [] ++
        (u.roles.getD []).flatMap (fun role => R.getPermissions role) := by
  rcases u with ⟨id, roles, perms⟩
  cases roles <;> cases perms <;> rfl

theorem collectUserPermissions_mono {R : RoleRegistry} {u u' : UserContext}
    (hroles : ∀ x ∈ u.roles.getD [], x ∈ u'.roles.getD [])
    (hperms : ∀ x ∈ u.permissions.getD [], x ∈ u'.permissions.getD [])
    {x : String} (hx : x ∈ collectUserPermissions u R) :
    x ∈ collectUserPermissions u' R := by
  rw [collect_eq_getD] at hx ⊢
  rcases List.mem_append.mp hx with h | h
  · exact List.mem_append.mpr (Or.inl (hperms x h))
  · rcases List.mem_flatMap.mp h with ⟨role, hrole, hxr⟩
    exact List.mem_append.mpr
      (Or.inr (List.mem_flatMap.mpr ⟨role, hroles role hrole, hxr⟩))

/-- C10: `canUser` is monotone in the user's grants — enlarging the role
list or the direct-permission list (absent fields read as empty) never turns
a grant into a denial. -/
theorem canUser_monotone :
    ∀ (R : RoleRegistry) (p : String) (u u' : UserContext),
      isBlank p = false →
      (∀ x ∈ u.roles.getD [], x ∈ u'.roles.getD []) →
      (∀ x ∈ u.permissions.getD [], x ∈ u'.permissions.getD []) →
      canUser (some u) p R = true → canUser (some u') p R = true := by
  intro R p u u' hp hroles hperms h
  rw [canUser_some_eq u p R hp] at h
  rw [canUser_some_eq u' p R hp]
  simp only [amendedGrant, Bool.or_eq_true, List.any_eq_true,
    contains_mem_iff] at h ⊢
  rcases h with (h | h) | ⟨q, hq, hmem⟩
  · exact Or.inl (Or.inl (collectUserPermissions_mono hroles hperms h))
  · exact Or.inl (Or.inr (collectUserPermissions_mono hroles hperms h))
  · exact Or.inr ⟨q, hq, collectUserPermissions_mono hroles hperms hmem⟩

/-- Witness for C10: a user with strictly more roles and direct permissions
keeps a grant the smaller user already had. -/
theorem canUser_monotone_witness :
    canUser (some { roles := some ["r"], permissions := some ["x", "y"] }) "x"
      (defineRoles []) = true :=
  canUser_monotone (defineRoles []) "x" { permissions := some ["x"] }
    { roles := some ["r"], permissions := some ["x", "y"] }
    (by decide) (by decide) (by decide) (by decide)
